import Mathlib

/-!
Verification of the Turn & Scoring Engine of the neon-bowling repository.

The embedding translates `src/lib/scoring.ts` (shipped as `src/unnamed/part_000`:
`computeBowlingScore`, `makeInitialFrames`, `isFrameComplete`, `maxPinsThisRoll`)
and the turn-controller logic of `onLaneEvent` in `src/src/App.tsx` into Lean.
JavaScript numbers holding pin counts are modelled as `Int`; `xs[i] ?? 0`
becomes `List.getD xs i 0`.
-/

namespace Bowling

/-- `export type Frame = { rolls: number[] }`. -/
structure Frame where
  rolls : List Int
deriving Repr, DecidableEq

/-- Flattening loop of `computeBowlingScore`: the first (at most) 10 frames'
rolls concatenated in order. -/
def flattenRolls (frames : List Frame) : List Int :=
  ((frames.take 10).map Frame.rolls).flatten

/-- The scoring walk of `computeBowlingScore`: `fuel` counts the remaining
iterations of `for (let frame = 0; frame < 10; frame++)`, `i` is `rollIndex`.
Returns the pair `(total, perFrame)` accumulated by the loop body, with
`total` accumulated separately from the pushes onto `perFrame`, as in the
source. -/
def scoreWalk : Nat → List Int → Nat → Int × List Int
  | 0, _, _ => (0, [])
  | fuel + 1, rolls, i =>
    let first := rolls.getD i 0
    if first = 10 then
      -- strike
      let s : Int := 10 + rolls.getD (i + 1) 0 + rolls.getD (i + 2) 0
      let rest := scoreWalk fuel rolls (i + 1)
      (s + rest.1, s :: rest.2)
    else
      let second := rolls.getD (i + 1) 0
      let framePins := first + second
      if framePins = 10 then
        -- spare
        let s : Int := 10 + rolls.getD (i + 2) 0
        let rest := scoreWalk fuel rolls (i + 2)
        (s + rest.1, s :: rest.2)
      else
        -- open
        let rest := scoreWalk fuel rolls (i + 2)
        (framePins + rest.1, framePins :: rest.2)

/-- `computeBowlingScore(frames)`, returning `(total, perFrame)`. -/
def computeBowlingScore (frames : List Frame) : Int × List Int :=
  scoreWalk 10 (flattenRolls frames) 0

/-- `makeInitialFrames(playerCount)`: one row of 10 empty frames per player. -/
def makeInitialFrames (playerCount : Nat) : List (List Frame) :=
  List.replicate playerCount (List.replicate 10 ⟨[]⟩)

/-- `isFrameComplete(frameIndex, frame)`. -/
def isFrameComplete (frameIndex : Nat) (frame : Frame) : Bool :=
  let rolls := frame.rolls
  if frameIndex < 9 then
    if rolls.length = 0 then false
    else if rolls.getD 0 0 = 10 then true
    else decide (2 ≤ rolls.length)
  else
    -- 10th frame
    if rolls.length < 2 then false
    else
      let first := rolls.getD 0 0
      let second := rolls.getD 1 0
      if first = 10 ∨ first + second = 10 then decide (3 ≤ rolls.length)
      else decide (2 ≤ rolls.length)

/-- `maxPinsThisRoll(frameIndex, frame)`. -/
def maxPinsThisRoll (frameIndex : Nat) (frame : Frame) : Int :=
  if frameIndex < 9 then
    if frame.rolls.length = 0 then 10
    else max 0 (10 - frame.rolls.getD 0 0)
  else
    -- 10th frame
    let r := frame.rolls
    if r.length = 0 then 10
    else if r.length = 1 then (if r.getD 0 0 = 10 then 10 else 10 - r.getD 0 0)
    else if r.length = 2 then
      let first := r.getD 0 0
      let second := r.getD 1 0
      if first = 10 then (if second = 10 then 10 else 10 - second)
      else if first + second = 10 then 10
      else 0
    else 0

/-- A roll list is legal for a frame when each successive roll lies in
`[0, maxPinsThisRoll]` computed over the rolls recorded before it — the
clamp applied by `onLaneEvent` guarantees exactly this. `acc` is the list
of rolls already recorded. -/
def legalFrom (frameIndex : Nat) (acc : List Int) : List Int → Bool
  | [] => true
  | r :: rest =>
    (decide (0 ≤ r) && decide (r ≤ maxPinsThisRoll frameIndex ⟨acc⟩))
      && legalFrom frameIndex (acc ++ [r]) rest

/-- All rolls of the frame are legal, starting from the empty frame. -/
def legalFrame (frameIndex : Nat) (frame : Frame) : Bool :=
  legalFrom frameIndex [] frame.rolls

/-- `const knocked = Math.max(0, Math.min(maxPins, e.knocked))` in
`onLaneEvent` (App.tsx line 46): the reported pin count clamped before it
is pushed onto the active frame. -/
def recordedRoll (frameIndex : Nat) (frame : Frame) (reported : Int) : Int :=
  max 0 (min (maxPinsThisRoll frameIndex frame) reported)

/-- The turn-controller state held by `App`: `framesByPlayer`, `playerIndex`,
`frameIndex`, `keepStandingPins` (the `resetToken` and `rolling` flags are
presentation-only and are not part of the claims). -/
structure TurnState where
  framesByPlayer : List (List Frame)
  playerIndex : Nat
  frameIndex : Nat
  keepStandingPins : Bool
deriving Repr, DecidableEq

/-- `const curFrame = curFrames[frameIndex] ?? { rolls: [] }` where
`curFrames = framesByPlayer[playerIndex] ?? []`. -/
def curFrame (s : TurnState) : Frame :=
  (s.framesByPlayer.getD s.playerIndex []).getD s.frameIndex ⟨[]⟩

/-- The Frame Store update of `onLaneEvent`: replace the active player's
active frame. -/
def setCurFrame (s : TurnState) (f : Frame) : List (List Frame) :=
  s.framesByPlayer.set s.playerIndex
    ((s.framesByPlayer.getD s.playerIndex []).set s.frameIndex f)

/-- The `roll_end` branch of `onLaneEvent` (App.tsx lines 43-82): clamp the
reported count, append it to the active frame, then either stay on the frame
with carry-over pins, advance to the next player, or advance to the next
frame (saturating at 9) with a full rack.  `players.length - 1` is computed
in `Int` as in JavaScript. -/
def onRollEnd (playerCount : Nat) (s : TurnState) (reported : Int) : TurnState :=
  let knocked := recordedRoll s.frameIndex (curFrame s) reported
  let newFrame : Frame := ⟨(curFrame s).rolls ++ [knocked]⟩
  let store := setCurFrame s newFrame
  if !(isFrameComplete s.frameIndex newFrame) then
    { framesByPlayer := store, playerIndex := s.playerIndex,
      frameIndex := s.frameIndex, keepStandingPins := true }
  else if (s.playerIndex : Int) ≠ (playerCount : Int) - 1 then
    { framesByPlayer := store, playerIndex := s.playerIndex + 1,
      frameIndex := s.frameIndex, keepStandingPins := false }
  else
    { framesByPlayer := store, playerIndex := 0,
      frameIndex := min 9 (s.frameIndex + 1), keepStandingPins := false }

/-- The initial `useState` values of `App`: player 0, frame 0, full rack. -/
def initialTurnState (playerCount : Nat) : TurnState :=
  ⟨makeInitialFrames playerCount, 0, 0, false⟩

end Bowling


namespace Bowling

/-! ### Helper lemmas about the scoring walk -/

theorem scoreWalk_length (n : Nat) (rolls : List Int) (i : Nat) :
    (scoreWalk n rolls i).2.length = n := by
  induction n generalizing i with
  | zero => rfl
  | succ n ih =>
    simp only [scoreWalk]
    split
    · simpa using ih (i + 1)
    · split <;> simpa using ih (i + 2)

theorem scoreWalk_total_eq_sum (n : Nat) (rolls : List Int) (i : Nat) :
    (scoreWalk n rolls i).1 = (scoreWalk n rolls i).2.sum := by
  induction n generalizing i with
  | zero => rfl
  | succ n ih =>
    simp only [scoreWalk]
    split
    · simpa using ih (i + 1)
    · split <;> simpa using ih (i + 2)

/-! ### Claim theorems -/

/-- C1: an all-strikes game (a strike in each of frames 0-8 and `[10,10,10]`
in frame 9) scores a total of 300 with every `perFrame` entry equal to 30. -/
theorem allStrikes_score :
    computeBowlingScore (List.replicate 9 ⟨[10]⟩ ++ [⟨[10, 10, 10]⟩])
      = (300, List.replicate 10 30) := by decide

/-- C9: for every input frame list, `perFrame` has exactly 10 numeric
entries, the returned total is the sum of those entries, and frames beyond
the first 10 are ignored. -/
theorem score_shape_total_sum (frames : List Frame) :
    (computeBowlingScore frames).2.length = 10 ∧
    (computeBowlingScore frames).1 = (computeBowlingScore frames).2.sum ∧
    computeBowlingScore frames = computeBowlingScore (frames.take 10) := by
  refine ⟨scoreWalk_length 10 _ 0, scoreWalk_total_eq_sum 10 _ 0, ?_⟩
  unfold computeBowlingScore flattenRolls
  simp [List.take_take]

/-- C8: with `[10, 7, 2]` in frame 9 the frame scores 19, and once frame 9
holds 3 rolls `maxPinsThisRoll` is 0, so no 4th roll is permitted. -/
theorem tenth_frame_strike_seven_two :
    (computeBowlingScore (List.replicate 9 ⟨[0, 0]⟩ ++ [⟨[10, 7, 2]⟩])).2.getD 9 0 = 19 ∧
    maxPinsThisRoll 9 ⟨[10, 7, 2]⟩ = 0 := by decide

/-- C3 counterexample: on the partial game whose only frame holds the single
roll `[3]`, the `perFrame` slot for that frame is the number 3 (present, not
undefined/absent) and the frame contributes 3 — not 0 — to the total. -/
theorem partial_frame_slot_numeric_cex :
    (computeBowlingScore [⟨[3]⟩]).2[0]? = some 3 ∧
    (computeBowlingScore [⟨[3]⟩]).1 ≠ 0 := by decide

/-- C6 counterexample: the completed open frame `[3, 4]` at index 0 is
complete, yet `maxPinsThisRoll` reports 7, not 0 — the function ignores the
roll count for frames 0-8 and only subtracts the first roll. -/
theorem complete_open_frame_max_pins_cex :
    isFrameComplete 0 ⟨[3, 4]⟩ = true ∧
    maxPinsThisRoll 0 ⟨[3, 4]⟩ = 7 ∧
    maxPinsThisRoll 0 ⟨[3, 4]⟩ ≠ 0 := by decide

end Bowling

namespace Bowling

/-! ### Helper lemmas about legality and the store -/

theorem maxPinsThisRoll_nil (fi : Nat) : maxPinsThisRoll fi ⟨[]⟩ = 10 := by
  unfold maxPinsThisRoll
  split <;> simp

theorem legalFrame_head {fi : Nat} {r0 : Int} {rest : List Int}
    (h : legalFrame fi ⟨r0 :: rest⟩ = true) : 0 ≤ r0 ∧ r0 ≤ 10 := by
  simp only [legalFrame, legalFrom, Bool.and_eq_true, decide_eq_true_eq] at h
  exact ⟨h.1.1, by simpa [maxPinsThisRoll_nil] using h.1.2⟩

theorem legalFrame_second {fi : Nat} {r0 r1 : Int} {rest : List Int}
    (h : legalFrame fi ⟨r0 :: r1 :: rest⟩ = true) :
    0 ≤ r1 ∧ r1 ≤ maxPinsThisRoll fi ⟨[r0]⟩ := by
  simp only [legalFrame, legalFrom, Bool.and_eq_true, decide_eq_true_eq,
    List.nil_append] at h
  exact ⟨h.2.1.1, h.2.1.2⟩

theorem maxPinsThisRoll_nonneg (fi : Nat) (f : Frame)
    (h : legalFrame fi f = true) : 0 ≤ maxPinsThisRoll fi f := by
  obtain ⟨rolls⟩ := f
  by_cases hfi : fi < 9
  · rcases rolls with _ | ⟨r0, rest⟩ <;> simp [maxPinsThisRoll, hfi]
  · rcases rolls with _ | ⟨r0, _ | ⟨r1, _ | ⟨r2, rest⟩⟩⟩
    · simp [maxPinsThisRoll, hfi]
    · have h0 := legalFrame_head h
      simp only [maxPinsThisRoll, hfi, if_false, List.length_cons,
        List.length_nil, List.getD_cons_zero]
      norm_num
      split <;> omega
    · have h0 := legalFrame_head h
      have h1 := legalFrame_second h
      rw [maxPinsThisRoll] at h1 ⊢
      simp only [hfi, if_false, List.length_cons, List.length_nil,
        List.getD_cons_zero, List.getD_cons_succ] at h1 ⊢
      norm_num at h1 ⊢
      by_cases hr0 : r0 = 10
      · simp only [hr0, if_true] at h1 ⊢
        split <;> omega
      · simp only [hr0, if_false] at h1 ⊢
        split <;> omega
    · simp [maxPinsThisRoll, hfi]

theorem getD_set_self {α : Type} (l : List α) (i : Nat) (x d : α)
    (h : i < l.length) : (l.set i x).getD i d = x := by
  induction l generalizing i with
  | nil => simp at h
  | cons a l ih =>
    cases i with
    | zero => rfl
    | succ i =>
      simp only [List.set, List.getD_cons_succ]
      exact ih i (by simpa using h)

theorem onRollEnd_framesByPlayer (pc : Nat) (s : TurnState) (k : Int) :
    (onRollEnd pc s k).framesByPlayer
      = setCurFrame s ⟨(curFrame s).rolls ++ [recordedRoll s.frameIndex (curFrame s) k]⟩ := by
  simp only [onRollEnd]
  split
  · rfl
  · split <;> rfl

end Bowling

namespace Bowling

/-- Characterization of `isFrameComplete` as a proposition over the frame
index, the roll count, and the first two rolls. -/
theorem isFrameComplete_iff (fi : Nat) (rolls : List Int) :
    isFrameComplete fi ⟨rolls⟩ = true ↔
      (fi < 9 ∧ 1 ≤ rolls.length ∧ (rolls.getD 0 0 = 10 ∨ 2 ≤ rolls.length)) ∨
      (9 ≤ fi ∧ 2 ≤ rolls.length ∧
        ((rolls.getD 0 0 = 10 ∨ rolls.getD 0 0 + rolls.getD 1 0 = 10) →
          3 ≤ rolls.length)) := by
  by_cases hfi : fi < 9 <;>
    rcases rolls with _ | ⟨r0, _ | ⟨r1, _ | ⟨r2, rest⟩⟩⟩ <;>
      simp [isFrameComplete, hfi, List.getD_cons_zero, List.getD_cons_succ,
        List.getD_nil] <;>
      omega

end Bowling

namespace Bowling

/-- Legality bounds for frame 9: the first roll lies in `[0, 10]`, the
second is non-negative, and unless the first roll is a strike the first two
rolls sum to at most 10. -/
theorem legalFrame9_bounds (rolls : List Int)
    (h : legalFrame 9 ⟨rolls⟩ = true) :
    0 ≤ rolls.getD 0 0 ∧ rolls.getD 0 0 ≤ 10 ∧ 0 ≤ rolls.getD 1 0 ∧
    (rolls.getD 0 0 ≠ 10 → rolls.getD 0 0 + rolls.getD 1 0 ≤ 10) := by
  rcases rolls with _ | ⟨r0, _ | ⟨r1, rest⟩⟩
  · simp
  · have h0 := legalFrame_head h
    simp only [List.getD_cons_zero, List.getD_cons_succ, List.getD_nil]
    omega
  · have h0 := legalFrame_head h
    have h1 := legalFrame_second h
    simp only [List.getD_cons_zero, List.getD_cons_succ]
    by_cases hr0 : r0 = 10 <;>
      simp only [maxPinsThisRoll, hr0, List.length_cons, List.length_nil,
        List.getD_cons_zero, if_true, if_false] at h1 <;>
      norm_num at h1 <;>
      omega

/-- C4: for frame index 9 and legal rolls, the frame is incomplete with
fewer than 2 rolls; when the first two rolls sum to 10 or more it is
complete exactly once 3 rolls exist; otherwise it is complete exactly once
2 rolls exist. -/
theorem tenth_frame_completion (rolls : List Int)
    (h : legalFrame 9 ⟨rolls⟩ = true) :
    (rolls.length < 2 → isFrameComplete 9 ⟨rolls⟩ = false) ∧
    (10 ≤ rolls.getD 0 0 + rolls.getD 1 0 →
      (isFrameComplete 9 ⟨rolls⟩ = true ↔ 3 ≤ rolls.length)) ∧
    (rolls.getD 0 0 + rolls.getD 1 0 < 10 →
      (isFrameComplete 9 ⟨rolls⟩ = true ↔ 2 ≤ rolls.length)) := by
  have hb := legalFrame9_bounds rolls h
  refine ⟨?_, ?_, ?_⟩
  · intro hlen
    cases hB : isFrameComplete 9 ⟨rolls⟩ with
    | false => rfl
    | true =>
      rw [isFrameComplete_iff] at hB
      omega
  · intro hsum
    rw [isFrameComplete_iff]
    omega
  · intro hsum
    rw [isFrameComplete_iff]
    omega

/-- Witness for `tenth_frame_completion`: with the legal 10th-frame rolls
`[10, 7, 2]`, whose first two rolls sum to at least 10, the frame is
complete exactly because it holds 3 rolls. -/
theorem tenth_frame_completion_witness :
    legalFrame 9 ⟨[10, 7, 2]⟩ = true ∧
    (isFrameComplete 9 ⟨[10, 7, 2]⟩ = true ↔ 3 ≤ ([10, 7, 2] : List Int).length) :=
  ⟨by decide, (tenth_frame_completion [10, 7, 2] (by decide)).2.1 (by decide)⟩

/-- C10: `isFrameComplete` is monotone under appending a single roll: a
frame never transitions from complete back to incomplete. -/
theorem isFrameComplete_monotone (fi : Nat) (rolls : List Int) (r : Int)
    (h : isFrameComplete fi ⟨rolls⟩ = true) :
    isFrameComplete fi ⟨rolls ++ [r]⟩ = true := by
  rw [isFrameComplete_iff] at h ⊢
  simp only [List.length_append, List.length_cons, List.length_nil] at h ⊢
  omega

/-- Witness for `isFrameComplete_monotone`: the complete strike frame `[10]`
at index 0 stays complete after a roll of 5 is appended. -/
theorem isFrameComplete_monotone_witness :
    isFrameComplete 0 ⟨[10]⟩ = true ∧
    isFrameComplete 0 ⟨[10] ++ [5]⟩ = true :=
  ⟨by decide, isFrameComplete_monotone 0 [10] 5 (by decide)⟩

end Bowling

namespace Bowling

/-- C2: the roll recorded in the Frame Store by `onLaneEvent` is the
reported `knocked` clamped to `[0, maxPinsThisRoll]`: the active frame
gains exactly the clamped value, a report above the maximum records the
maximum, and a negative report records 0 — out-of-range reports are
recovered by clamping, never surfaced as a failure. -/
theorem clamp_recorded_roll (pc : Nat) (s : TurnState) (reported : Int)
    (hp : s.playerIndex < s.framesByPlayer.length)
    (hf : s.frameIndex < (s.framesByPlayer.getD s.playerIndex []).length)
    (hl : legalFrame s.frameIndex (curFrame s) = true) :
    ((onRollEnd pc s reported).framesByPlayer.getD s.playerIndex []).getD
        s.frameIndex ⟨[]⟩
      = ⟨(curFrame s).rolls ++ [recordedRoll s.frameIndex (curFrame s) reported]⟩ ∧
    (maxPinsThisRoll s.frameIndex (curFrame s) < reported →
      recordedRoll s.frameIndex (curFrame s) reported
        = maxPinsThisRoll s.frameIndex (curFrame s)) ∧
    (reported < 0 → recordedRoll s.frameIndex (curFrame s) reported = 0) := by
  have hm := maxPinsThisRoll_nonneg s.frameIndex (curFrame s) hl
  refine ⟨?_, ?_, ?_⟩
  · rw [onRollEnd_framesByPlayer]
    unfold setCurFrame
    rw [getD_set_self _ _ _ _ hp, getD_set_self _ _ _ _ hf]
  · intro hgt
    unfold recordedRoll
    omega
  · intro hneg
    unfold recordedRoll
    omega

/-- Witness for `clamp_recorded_roll`: the initial one-player state (empty
frame 0) with a reported count of 15 records the clamped maximum 10, not
the raw 15. -/
theorem clamp_recorded_roll_witness :
    maxPinsThisRoll 0 (curFrame (initialTurnState 1)) < 15 ∧
    recordedRoll 0 (curFrame (initialTurnState 1)) 15
      = maxPinsThisRoll 0 (curFrame (initialTurnState 1)) :=
  ⟨by decide,
    (clamp_recorded_roll 1 (initialTurnState 1) 15 (by decide) (by decide)
      (by decide)).2.1 (by decide)⟩

/-- C6 (amended): for frames 0-8, a complete frame reports
`maxPinsThisRoll = max 0 (10 - firstRoll)` — 0 exactly when the frame was a
strike, but still positive for a completed open frame such as `[3, 4]`. -/
theorem complete_frame_max_pins (fi : Nat) (rolls : List Int)
    (hfi : fi < 9) (hc : isFrameComplete fi ⟨rolls⟩ = true) :
    maxPinsThisRoll fi ⟨rolls⟩ = max 0 (10 - rolls.getD 0 0) ∧
    (rolls.getD 0 0 = 10 → maxPinsThisRoll fi ⟨rolls⟩ = 0) := by
  rcases rolls with _ | ⟨r0, rest⟩
  · simp [isFrameComplete, hfi] at hc
  · constructor
    · simp [maxPinsThisRoll, hfi]
    · intro h10
      simp only [List.getD_cons_zero] at h10
      simp [maxPinsThisRoll, hfi, h10]

/-- Witness for `complete_frame_max_pins`: the strike frame `[10]` at index
0 is complete and admits no further pins. -/
theorem complete_frame_max_pins_witness :
    (0 : Nat) < 9 ∧ isFrameComplete 0 ⟨[10]⟩ = true ∧
    maxPinsThisRoll 0 ⟨[10]⟩ = 0 :=
  ⟨by decide, by decide,
    (complete_frame_max_pins 0 [10] (by decide) (by decide)).2 (by decide)⟩

end Bowling

namespace Bowling

/-- C5: the turn controller never decrements the active frame; on an
incomplete frame the same player and frame stay active with carry-over
pins; on a complete frame a non-last player hands over to the next player
at the same frame and the last player wraps to player 0 with
`frameIndex := min 9 (frameIndex + 1)`, both with a full rack; and with 3
players each rolling a strike in frame 0, `activePlayer` cycles 0→1→2→0
before `activeFrame` increments to 1. -/
theorem turn_controller_transitions :
    (∀ (pc : Nat) (s : TurnState) (k : Int), s.frameIndex ≤ 9 →
      s.frameIndex ≤ (onRollEnd pc s k).frameIndex) ∧
    (∀ (pc : Nat) (s : TurnState) (k : Int),
      (isFrameComplete s.frameIndex
          ⟨(curFrame s).rolls ++ [recordedRoll s.frameIndex (curFrame s) k]⟩ = false →
        (onRollEnd pc s k).playerIndex = s.playerIndex ∧
        (onRollEnd pc s k).frameIndex = s.frameIndex ∧
        (onRollEnd pc s k).keepStandingPins = true) ∧
      (isFrameComplete s.frameIndex
          ⟨(curFrame s).rolls ++ [recordedRoll s.frameIndex (curFrame s) k]⟩ = true →
        ((s.playerIndex : Int) ≠ (pc : Int) - 1 →
          (onRollEnd pc s k).playerIndex = s.playerIndex + 1 ∧
          (onRollEnd pc s k).frameIndex = s.frameIndex ∧
          (onRollEnd pc s k).keepStandingPins = false) ∧
        ((s.playerIndex : Int) = (pc : Int) - 1 →
          (onRollEnd pc s k).playerIndex = 0 ∧
          (onRollEnd pc s k).frameIndex = min 9 (s.frameIndex + 1) ∧
          (onRollEnd pc s k).keepStandingPins = false))) ∧
    ((onRollEnd 3 (initialTurnState 3) 10).playerIndex = 1 ∧
      (onRollEnd 3 (initialTurnState 3) 10).frameIndex = 0 ∧
      (onRollEnd 3 (onRollEnd 3 (initialTurnState 3) 10) 10).playerIndex = 2 ∧
      (onRollEnd 3 (onRollEnd 3 (initialTurnState 3) 10) 10).frameIndex = 0 ∧
      (onRollEnd 3 (onRollEnd 3 (onRollEnd 3 (initialTurnState 3) 10) 10) 10).playerIndex
        = 0 ∧
      (onRollEnd 3 (onRollEnd 3 (onRollEnd 3 (initialTurnState 3) 10) 10) 10).frameIndex
        = 1) := by
  refine ⟨?_, ?_, by decide⟩
  · intro pc s k h9
    simp only [onRollEnd]
    split
    · exact le_refl _
    · split
      · exact le_refl _
      · show s.frameIndex ≤ min 9 (s.frameIndex + 1)
        omega
  · intro pc s k
    refine ⟨?_, fun hdone => ⟨?_, ?_⟩⟩
    · intro hdone
      simp [onRollEnd, hdone]
    · intro hne
      simp [onRollEnd, hdone, hne]
    · intro heq
      simp [onRollEnd, hdone, heq]

/-- Witness for `turn_controller_transitions`: from the initial 3-player
state (frame 0), the frame index does not decrease on a roll. -/
theorem turn_controller_transitions_witness :
    (initialTurnState 3).frameIndex ≤ 9 ∧
    (initialTurnState 3).frameIndex
      ≤ (onRollEnd 3 (initialTurnState 3) 10).frameIndex :=
  ⟨by decide, turn_controller_transitions.1 3 (initialTurnState 3) 10 (by decide)⟩

end Bowling

namespace Bowling

/-- C7: the open frame `[4, 3]` followed by nine strikes and the 10th-frame
bonus rolls scores exactly 7 in slot 0; in general, a first frame holding
the open rolls `[a, b]` scores `a + b` regardless of everything rolled in
later frames. -/
theorem open_frame_unaffected_by_strikes :
    (computeBowlingScore
        (⟨[4, 3]⟩ :: (List.replicate 8 ⟨[10]⟩ ++ [⟨[10, 10, 10]⟩]))).2.getD 0 0 = 7 ∧
    (∀ (a b : Int) (rest : List Frame), a ≠ 10 → a + b ≠ 10 →
      (computeBowlingScore (⟨[a, b]⟩ :: rest)).2.getD 0 0 = a + b) := by
  refine ⟨by decide, ?_⟩
  intro a b rest ha hab
  have hflat : flattenRolls (⟨[a, b]⟩ :: rest)
      = a :: b :: ((rest.take 9).map Frame.rolls).flatten := by
    rw [flattenRolls, show (10 : Nat) = 9 + 1 from rfl, List.take_succ_cons]
    simp
  unfold computeBowlingScore
  rw [hflat]
  show (scoreWalk (9 + 1) (a :: b :: ((rest.take 9).map Frame.rolls).flatten) 0).2.getD 0 0
    = a + b
  rw [scoreWalk]
  simp [List.getD_cons_zero, List.getD_cons_succ, ha, hab]

/-- Witness for `open_frame_unaffected_by_strikes`: the lone open frame
`[4, 3]` scores 7 with no later frames present. -/
theorem open_frame_unaffected_by_strikes_witness :
    (4 : Int) ≠ 10 ∧ (4 : Int) + 3 ≠ 10 ∧
    (computeBowlingScore [⟨[4, 3]⟩]).2.getD 0 0 = 4 + 3 :=
  ⟨by decide, by decide,
    open_frame_unaffected_by_strikes.2 4 3 [] (by decide) (by decide)⟩

/-- After the cursor has passed the only recorded roll, the scoring walk
over the single-roll game `[r]` contributes nothing: every remaining frame
is read as an open frame of two absent (0) rolls. -/
theorem scoreWalk_one_roll (n : Nat) (r : Int) (i : Nat) (hi : 1 ≤ i) :
    scoreWalk n [r] i = (0, List.replicate n 0) := by
  induction n generalizing i with
  | zero => rfl
  | succ n ih =>
    have h0 : ∀ j, 1 ≤ j → ([r] : List Int).getD j 0 = 0 := by
      intro j hj
      cases j with
      | zero => omega
      | succ j => simp [List.getD_cons_succ, List.getD_nil]
    rw [scoreWalk]
    simp only [h0 i hi, h0 (i + 1) (by omega), h0 (i + 2) (by omega)]
    norm_num
    rw [ih (i + 2) (by omega)]
    simp [List.replicate_succ]

/-- C3 (amended): `computeBowlingScore` is total on partial games, but a
frame with zero or one roll receives a provisional numeric `perFrame` score
(missing rolls read as 0) rather than an undefined/absent slot, and the
total includes that provisional value: the empty game scores `(0, ten 0s)`
and the one-roll game `[r]` (no strike) has slot 0 equal to `r` and total
`r`. -/
theorem partial_game_provisional_scores :
    (∀ frames : List Frame, (computeBowlingScore frames).2.length = 10) ∧
    computeBowlingScore [] = (0, List.replicate 10 0) ∧
    (∀ r : Int, r ≠ 10 →
      (computeBowlingScore [⟨[r]⟩]).2.getD 0 0 = r ∧
      (computeBowlingScore [⟨[r]⟩]).1 = r) := by
  refine ⟨fun frames => scoreWalk_length 10 _ 0, by decide, ?_⟩
  intro r hr
  have hflat : flattenRolls [⟨[r]⟩] = [r] := by
    simp [flattenRolls]
  unfold computeBowlingScore
  rw [hflat]
  show (scoreWalk (9 + 1) [r] 0).2.getD 0 0 = r ∧ (scoreWalk (9 + 1) [r] 0).1 = r
  rw [scoreWalk]
  simp only [List.getD_cons_zero, List.getD_cons_succ, List.getD_nil]
  rw [scoreWalk_one_roll 9 r 2 (by omega)]
  simp [hr]

/-- Witness for `partial_game_provisional_scores`: the one-roll game `[3]`
has the provisional slot-0 score 3. -/
theorem partial_game_provisional_scores_witness :
    (3 : Int) ≠ 10 ∧ (computeBowlingScore [⟨[3]⟩]).2.getD 0 0 = 3 :=
  ⟨by decide, (partial_game_provisional_scores.2.2 3 (by decide)).1⟩

end Bowling
